import Mathlib

/-!
Shallow embedding of the prostate-analyzer repository, centred on the
lesion post-processing pipeline (`PredictionWorker._process_results` in
`app/controllers/prediction_controller.py`), the case bookkeeping
(`app/controllers/case_manager.py`) and the prediction admission check
(`PredictionController.start_prediction`).

Python floats are modelled as exact rationals (`ℚ`); the claims under
study are pure order comparisons against thresholds and exact sums, so
no rounding behaviour is relevant to them.  Machine-learning inference,
SimpleITK image I/O and the GUI layer are outside the embedding: the
post-processing model starts from the per-voxel probability volume and
the per-label statistics that SimpleITK returns, exactly as
`_process_results` consumes them.
-/

namespace ProstateAnalyzer

/-- Model of `config.MODEL_THRESHOLD` (config.py line 48): the default
binarization threshold 0.5. -/
def MODEL_THRESHOLD : ℚ := 1/2

/-- Model of the elementwise binarization
`(lesion_probability > MODEL_THRESHOLD).astype(np.float32)`
(prediction_controller.py line 292), for a single voxel: the mask value
is 1.0 when the probability strictly exceeds the threshold, else 0.0. -/
def binarizeVoxel (p : ℚ) : ℚ :=
  if MODEL_THRESHOLD < p then 1 else 0

/-- Model of the whole binarized mask over a (flattened) probability
volume. -/
def lesionMask (volume : List ℚ) : List ℚ :=
  volume.map binarizeVoxel

/-- Model of the severity classification in `_process_results`
(prediction_controller.py lines 333-338): thresholds 500 mm³ / 0.75 for
"Alta", 200 mm³ / 0.6 for "Media", else "Baja". -/
def classifySeverity (volume_mm3 : ℚ) (mean_probability : ℚ) : String :=
  if 500 < volume_mm3 ∧ 3/4 < mean_probability then "Alta"
  else if 200 < volume_mm3 ∨ 3/5 < mean_probability then "Media"
  else "Baja"

/-- A lesion entry as built by `_process_results` (lines 340-347).
`max_diameter_mm` and `centroid` are geometric values read off the
SimpleITK label statistics; they play no role in the claims and are
carried opaquely. -/
structure Lesion where
  id : Nat
  volume_mm3 : ℚ
  max_diameter_mm : ℚ
  centroid : List ℚ
  probability : ℚ
  severity : String
deriving Repr, DecidableEq

/-- Per-label statistics as returned by SimpleITK's
`LabelShapeStatisticsImageFilter` together with the mean probability
computed over the label mask: (label, volume_mm3, max_diameter_mm,
centroid, mean_probability).  `stats.GetLabels()` yields the labels in
ascending order, so the list order is the connected-component label
order. -/
structure LabelStat where
  label : Nat
  volume_mm3 : ℚ
  max_diameter_mm : ℚ
  centroid : List ℚ
  mean_probability : ℚ
deriving Repr, DecidableEq

/-- Building one lesion dictionary from one label's statistics
(lines 331-347). -/
def mkLesion (s : LabelStat) : Lesion :=
  { id := s.label
    volume_mm3 := s.volume_mm3
    max_diameter_mm := s.max_diameter_mm
    centroid := s.centroid
    probability := s.mean_probability
    severity := classifySeverity s.volume_mm3 s.mean_probability }

/-- The comparison used by `lesions.sort(key=lambda x: x['volume_mm3'],
reverse=True)` (line 350): `a` may stay before `b` when its volume is at
least `b`'s.  Python's sort is stable, also with `reverse=True`; we model
it with the stable `List.mergeSort`. -/
def lesionLE (a b : Lesion) : Bool :=
  decide (b.volume_mm3 ≤ a.volume_mm3)

/-- Model of the in-place descending stable sort of the lesion list. -/
def sortLesions (ls : List Lesion) : List Lesion :=
  ls.mergeSort lesionLE

/-- The final results dictionary of `_process_results` (lines 352-360),
minus the dense segmentation array and the wall-clock date, which no
claim touches. -/
structure PredictionResults where
  lesions : List Lesion
  num_lesions : Nat
  has_significant_lesion : Bool
  total_lesion_volume : ℚ
deriving Repr

/-- Model of the lesion-list part of `_process_results` (lines 306-360):
build one lesion per label in label order, sort by descending volume,
then derive the aggregate fields from the (sorted) list. -/
def processResults (stats : List LabelStat) : PredictionResults :=
  let lesions := sortLesions (stats.map mkLesion)
  { lesions := lesions
    num_lesions := lesions.length
    has_significant_lesion := lesions.any (fun l => l.severity == "Alta")
    total_lesion_volume := (lesions.map Lesion.volume_mm3).sum }

/-- Test whether `sub` occurs at the start of `name`, the character-list
reading of Python's `str.startswith`; building block for the substring
test below. -/
def isStart : List Char → List Char → Bool
  | [], _ => true
  | _ :: _, [] => false
  | c :: cs, d :: ds => c == d && isStart cs ds

/-- Test whether `sub` occurs somewhere inside `name`: the character-list
reading of Python's `sub in name` membership test used by
`CaseManager._process_file` (case_manager.py line 160 onwards). -/
def hasSub (sub : List Char) : List Char → Bool
  | [] => isStart sub []
  | c :: rest => isStart sub (c :: rest) || hasSub sub rest

/-- Model of `os.path.basename`: the part of the path after the last
slash. -/
def basename (p : List Char) : List Char :=
  (p.reverse.takeWhile (fun c => c ≠ '/')).reverse

/-- Model of `str.lower` on a character list. -/
def lowerName (p : List Char) : List Char :=
  p.map Char.toLower

/-- Model of the sequence-type inference of `CaseManager._process_file`
(case_manager.py lines 157-171): the first matching substring rule on the
lowercased base name wins. -/
def inferSequenceType (file_name : List Char) : String :=
  if hasSub "t2".toList file_name || hasSub "t2w".toList file_name then "t2w"
  else if hasSub "adc".toList file_name then "adc"
  else if hasSub "dwi".toList file_name || hasSub "hbv".toList file_name then "dwi"
  else if hasSub "cor".toList file_name then "cor"
  else if hasSub "sag".toList file_name then "sag"
  else "unknown"

/-- The sequence type `_process_file` assigns to a path: the inference
run on the lowercased base name of the path. -/
def sequenceTypeOfPath (path : String) : String :=
  inferSequenceType (lowerName (basename path.toList))

/-- A file record as produced by `load_medical_image`
(app/utils/image_loader.py) and tagged by `_process_file`: path, format,
loading backend, the transient voxel array (stripped on save), per-file
metadata and the inferred sequence type.  Metadata is modelled as an
association list of string pairs, voxel data as an optional list of
rationals. -/
structure FileInfo where
  path : String
  format : String
  loaded_with : Option String
  array : Option (List ℚ)
  metadata : List (String × String)
  sequence_type : String
deriving Repr, DecidableEq

/-- A case record as built by `CaseManager.load_case` (case_manager.py
lines 68-76): the persisted schema (the optional attached prediction
results are not part of the saved JSON claims and are carried by the
generic per-case update operation below). -/
structure Case where
  id : String
  name : String
  files : List FileInfo
  metadata : List (String × String)
  created_date : String
  modified_date : String
  has_changes : Bool
deriving Repr, DecidableEq

/-- The mutable state of `CaseManager`: the list of open cases and the
current-case index (`-1` meaning no current case).  The index is an
integer exactly as in Python. -/
structure CaseManagerState where
  cases : List Case
  current_case_index : Int
deriving Repr, DecidableEq

/-- The freshly constructed `CaseManager` (case_manager.py lines 44-48). -/
def initialCaseManager : CaseManagerState :=
  { cases := [], current_case_index := -1 }

/-- A metadata key matches when the lowercased key contains the given
substring, as in `_extract_case_metadata` (lines 193-211). -/
def keyHasSub (sub : String) (key : String) : Bool :=
  hasSub sub.toList (lowerName key.toList)

/-- Model of `CaseManager._extract_case_metadata` (lines 175-211):
patient id and study date are pulled from the first file's metadata when
a key matching the DICOM-style names is found. -/
def extractCaseMetadata (files : List FileInfo) : List (String × String) :=
  match files with
  | [] => []
  | f :: _ =>
      let pid := f.metadata.find? fun kv =>
        keyHasSub "patientid" kv.1 || keyHasSub "patient id" kv.1
      let sd := f.metadata.find? fun kv =>
        keyHasSub "study date" kv.1 || keyHasSub "studydate" kv.1
      (match pid with
       | some kv => [("patient_id", kv.2)]
       | none => []) ++
      (match sd with
       | some kv => [("study_date", kv.2)]
       | none => [])

/-- Model of `CaseManager.load_case` (case_manager.py lines 50-103).
Per-file processing (`load_medical_image` plus sequence tagging) is
abstracted as an oracle: `parseResults` holds, for each path in the
input list, either the resulting file record or `none` when processing
raised and the loop moved on.  `now` stands for the wall-clock stamp
used for the id and the dates, `caseName` for the name derived from the
first path.  `newCaseOf` is the case dict built at lines 68-76. -/
def newCaseOf (now caseName : String) (files : List FileInfo) : Case :=
  { id := "case_" ++ now
    name := caseName
    files := files
    metadata := extractCaseMetadata files
    created_date := now
    modified_date := now
    has_changes := false }

/-- Continuation of the `load_case` model: the two failure checks and
the success path appending the new case and making it current. -/
def load_case (st : CaseManagerState) (now : String) (caseName : String)
    (parseResults : List (Option FileInfo)) :
    Except String (CaseManagerState × Case) :=
  if parseResults.isEmpty then
    .error "No se proporcionaron archivos para cargar"
  else if (parseResults.filterMap id).isEmpty then
    .error "No se pudo procesar ninguno de los archivos proporcionados"
  else
    .ok ({ cases := st.cases ++
             [newCaseOf now caseName (parseResults.filterMap id)],
           current_case_index := (st.cases.length : Int) },
         newCaseOf now caseName (parseResults.filterMap id))

/-- Model of `CaseManager.get_current_case` (lines 222-232). -/
def get_current_case (st : CaseManagerState) : Option Case :=
  if st.current_case_index < 0 ∨
      (st.cases.length : Int) ≤ st.current_case_index then none
  else st.cases.get? st.current_case_index.toNat

/-- Model of `CaseManager.close_current_case` (lines 234-251): pop the
current case, then clamp the index (`-1` when the list became empty,
last index when the old index fell off the end). -/
def close_current_case (st : CaseManagerState) : CaseManagerState :=
  if st.current_case_index < 0 ∨
      (st.cases.length : Int) ≤ st.current_case_index then st
  else
    { cases := st.cases.eraseIdx st.current_case_index.toNat
      current_case_index :=
        if (st.cases.eraseIdx st.current_case_index.toNat).length = 0 then -1
        else if ((st.cases.eraseIdx st.current_case_index.toNat).length : Int)
            ≤ st.current_case_index then
          ((st.cases.eraseIdx st.current_case_index.toNat).length : Int) - 1
        else st.current_case_index }

/-- Model of `CaseManager.close_all_cases` (lines 253-259). -/
def close_all_cases (_st : CaseManagerState) : CaseManagerState :=
  { cases := [], current_case_index := -1 }

/-- Common shape of the operations that edit the current case in place
(`add_file_to_current_case`, `remove_file_from_current_case`,
`update_current_case_metadata`, `set_current_case_prediction_results`):
when the index is valid, replace the current case by `f` of it; the case
list length and the index are untouched. -/
def modify_current_case (st : CaseManagerState) (f : Case → Case) :
    CaseManagerState :=
  if st.current_case_index < 0 ∨
      (st.cases.length : Int) ≤ st.current_case_index then st
  else
    { st with cases :=
        match st.cases.get? st.current_case_index.toNat with
        | some c => st.cases.set st.current_case_index.toNat (f c)
        | none => st.cases }

/-- A JSON value, the target of `json.dump` / source of `json.load` in
`save_current_case` and `load_case_from_file`. -/
inductive Json where
  | null : Json
  | bool : Bool → Json
  | num : ℚ → Json
  | str : String → Json
  | arr : List Json → Json
  | obj : List (String × Json) → Json

/-- Key lookup in a JSON object field list (first match wins, as in a
Python dict whose keys are unique). -/
def lookupField : List (String × Json) → String → Option Json
  | [], _ => none
  | kv :: rest, key => if kv.1 = key then some kv.2 else lookupField rest key

/-- Key lookup on a JSON value. -/
def Json.lookup : Json → String → Option Json
  | .obj fields, key => lookupField fields key
  | _, _ => none

/-- Encoding of a string-to-string metadata dict. -/
def encodeMetadata (m : List (String × String)) : Json :=
  .obj (m.map fun kv => (kv.1, .str kv.2))

/-- Decoding of a metadata field list. -/
def decodeMetaFields : List (String × Json) → Option (List (String × String))
  | [] => some []
  | (k, .str v) :: rest => (decodeMetaFields rest).map (fun m => (k, v) :: m)
  | _ => none

/-- Decoding of a metadata dict. -/
def decodeMetadata : Json → Option (List (String × String))
  | .obj fields => decodeMetaFields fields
  | _ => none

/-- Decoding of a numeric array. -/
def decodeNums : List Json → Option (List ℚ)
  | [] => some []
  | .num q :: rest => (decodeNums rest).map (fun l => q :: l)
  | _ => none

/-- Decoding of the optional `array` entry of a file record: the key is
absent from saved files (deleted before `json.dump`), so its absence
decodes to `none`. -/
def decodeArrayField : Option Json → Option (List ℚ)
  | some (.arr xs) => decodeNums xs
  | _ => none

/-- Decoding of the `loaded_with` entry (a string or JSON null). -/
def decodeLoadedWith : Json → Option (Option String)
  | .null => some none
  | .str s => some (some s)
  | _ => none

/-- JSON encoding of a file record, with the dict-key layout written by
`save_current_case`: the `array` key is present only when the record
still holds an array (after the save-time deletion it never is). -/
def encodeFileInfo (f : FileInfo) : Json :=
  .obj ([("path", .str f.path), ("format", .str f.format)]
    ++ (match f.loaded_with with
        | some lw => [("loaded_with", .str lw)]
        | none => [("loaded_with", .null)])
    ++ (match f.array with
        | some a => [("array", .arr (a.map Json.num))]
        | none => [])
    ++ [("metadata", encodeMetadata f.metadata),
        ("sequence_type", .str f.sequence_type)])

/-- Decoding of a file record from JSON. -/
def decodeFileInfo (j : Json) : Option FileInfo :=
  match j.lookup "path" with
  | some (.str p) =>
    match j.lookup "format" with
    | some (.str fm) =>
      match j.lookup "loaded_with" with
      | some lw =>
        match decodeLoadedWith lw with
        | some lwv =>
          match j.lookup "metadata" with
          | some md =>
            match decodeMetadata md with
            | some mdv =>
              match j.lookup "sequence_type" with
              | some (.str sq) =>
                some { path := p, format := fm, loaded_with := lwv,
                       array := decodeArrayField (j.lookup "array"),
                       metadata := mdv, sequence_type := sq }
              | _ => none
            | none => none
          | _ => none
        | none => none
      | _ => none
    | _ => none
  | _ => none

/-- Decoding of the file list of a case. -/
def decodeFiles : List Json → Option (List FileInfo)
  | [] => some []
  | j :: js =>
      match decodeFileInfo j, decodeFiles js with
      | some f, some fs => some (f :: fs)
      | _, _ => none

/-- JSON encoding of a case, with the key layout `save_current_case`
writes. -/
def encodeCase (c : Case) : Json :=
  .obj [("id", .str c.id), ("name", .str c.name),
        ("files", .arr (c.files.map encodeFileInfo)),
        ("metadata", encodeMetadata c.metadata),
        ("created_date", .str c.created_date),
        ("modified_date", .str c.modified_date),
        ("has_changes", .bool c.has_changes)]

/-- Decoding of a case from JSON; failure models the schema check of
`load_case_from_file` (case_manager.py line 345). -/
def decodeCase (j : Json) : Option Case :=
  match j.lookup "id" with
  | some (.str cid) =>
    match j.lookup "name" with
    | some (.str nm) =>
      match j.lookup "files" with
      | some (.arr js) =>
        match decodeFiles js with
        | some fs =>
          match j.lookup "metadata" with
          | some md =>
            match decodeMetadata md with
            | some mdv =>
              match j.lookup "created_date" with
              | some (.str cd) =>
                match j.lookup "modified_date" with
                | some (.str mdate) =>
                  match j.lookup "has_changes" with
                  | some (.bool hc) =>
                    some { id := cid, name := nm, files := fs,
                           metadata := mdv, created_date := cd,
                           modified_date := mdate, has_changes := hc }
                  | _ => none
                | _ => none
              | _ => none
            | none => none
          | _ => none
        | none => none
      | _ => none
    | _ => none
  | _ => none

/-- Removal of the transient voxel array from a file record, as done by
`del file_info['array']` before `json.dump` (case_manager.py
lines 309-312). -/
def stripFileArray (f : FileInfo) : FileInfo :=
  { f with array := none }

/-- The JSON document `save_current_case` writes for a case (lines
301-314): modification date refreshed, every file record's array
removed, everything else verbatim. -/
def saveCaseJson (c : Case) (now : String) : Json :=
  encodeCase { c with modified_date := now,
                      files := c.files.map stripFileArray }

/-- State effect of `save_current_case` on the manager (lines 282-325):
with a valid current index, the current case ends up with the refreshed
modification date, stripped arrays (the serialized copy is shallow, so
the live file dicts lose their arrays too) and `has_changes = False`,
and the written JSON document is returned alongside. -/
def save_current_case (st : CaseManagerState) (now : String) :
    CaseManagerState × Option Json :=
  if st.current_case_index < 0 ∨
      (st.cases.length : Int) ≤ st.current_case_index then (st, none)
  else
    match st.cases.get? st.current_case_index.toNat with
    | none => (st, none)
    | some c =>
        let saved := saveCaseJson c now
        let c1 : Case :=
          { c with modified_date := now,
                   files := c.files.map stripFileArray,
                   has_changes := false }
        ({ st with cases :=
             st.cases.set st.current_case_index.toNat c1 }, some saved)

/-- Model of `CaseManager.load_case_from_file` (lines 327-360): decode
the JSON document, fail when it is not a valid case, else append it and
make it current. -/
def load_case_from_file (st : CaseManagerState) (j : Json) :
    Except String (CaseManagerState × Case) :=
  match decodeCase j with
  | none => .error "El archivo no contiene un caso válido"
  | some c =>
      .ok ({ cases := st.cases ++ [c],
             current_case_index := (st.cases.length : Int) }, c)

/-- The invariant of claim C8: the current-case index is `-1` (no
current case) or a valid position in the case list. -/
def CMInv (st : CaseManagerState) : Prop :=
  st.current_case_index = -1 ∨
    (0 ≤ st.current_case_index ∧
      st.current_case_index < (st.cases.length : Int))

/-- The background prediction worker as seen by the controller: whether
it is still running, and the inputs it was started with. -/
structure PredWorker where
  running : Bool
  case_files : List FileInfo
  model_path : String
deriving Repr, DecidableEq

/-- The state of `PredictionController` relevant to prediction
admission: the configured model path and the (single) worker slot. -/
structure PredControllerState where
  model_path : String
  sample_model_path : String
  worker : Option PredWorker
deriving Repr, DecidableEq

/-- Whether the controller currently has a running worker
(`self.worker and self.worker.isRunning()`). -/
def workerRunning (st : PredControllerState) : Bool :=
  match st.worker with
  | some w => w.running
  | none => false

/-- Model of `PredictionController.start_prediction`
(prediction_controller.py lines 391-432).  Library availability and the
filesystem are oracle inputs; `case_data` is `none` when the argument is
falsy or lacks a `files` entry.  The result of a call is the new
controller state plus the raised error message, if any; a worker is
started exactly when no error is raised.  Raising after the model-path
fallback leaves the mutated `model_path`, as in the source. -/
def start_prediction (torch_available monai_available : Bool)
    (file_exists : String → Bool) (st : PredControllerState)
    (case_data : Option (List FileInfo)) :
    PredControllerState × Option String :=
  if ¬ (torch_available ∧ monai_available) then
    (st, some "No se pueden realizar predicciones porque PyTorch o MONAI no están disponibles")
  else if case_data.isNone then
    (st, some "No hay caso cargado para predicción")
  else if workerRunning st then
    (st, some "Ya hay una predicción en proceso")
  else
    let st1 := if file_exists st.model_path then st
               else { st with model_path := st.sample_model_path }
    if ¬ file_exists st1.model_path then
      (st1, some ("No se encontró el modelo en " ++ st1.model_path))
    else
      ({ st1 with worker := some { running := true,
                                   case_files := case_data.getD [],
                                   model_path := st1.model_path } }, none)

/-- Heap model for claim C10: the file dictionaries live in a store and
a case holds references (list positions) into it, so that Python's
aliasing of dicts across shallow copies is explicit. -/
structure Store where
  recs : List FileInfo
deriving Repr, DecidableEq

/-- A case as a top-level dict whose `files` entry is a list of
references into the store. -/
structure HeapCase where
  id : String
  name : String
  fileRefs : List Nat
  modified_date : String
  has_changes : Bool
deriving Repr, DecidableEq

/-- Python's `dict.copy()` on a case: a new top-level dict with the same
values — in particular the same `files` list holding the same file-dict
references.  Only the top level is duplicated. -/
def dictCopy (c : HeapCase) : HeapCase := c

/-- In-place `del file_info['array']` on the record at one store
position. -/
def clearArrayAt : List FileInfo → Nat → List FileInfo
  | [], _ => []
  | f :: fs, 0 => { f with array := none } :: fs
  | f :: fs, Nat.succ i => f :: clearArrayAt fs i

/-- The save-time loop `for file_info in save_data['files']: del
file_info['array']`, executed over the referenced store positions. -/
def stripArraysAt (recs : List FileInfo) (refs : List Nat) : List FileInfo :=
  refs.foldl clearArrayAt recs

/-- Heap-level model of `save_current_case` (lines 301-317): refresh the
modification date, shallow-copy the case dict, delete the arrays of the
file records reachable from the copy, and finally clear `has_changes` on
the live case.  The store is mutated through the copy's references. -/
def save_current_case_heap (s : Store) (c : HeapCase) (now : String) :
    Store × HeapCase :=
  let c1 := { c with modified_date := now }
  let save_data := dictCopy c1
  let s1 : Store := { recs := stripArraysAt s.recs save_data.fileRefs }
  (s1, { c1 with has_changes := false })

/-- The comparison `lesionLE` is transitive. -/
theorem lesionLE_trans (a b c : Lesion) :
    lesionLE a b → lesionLE b c → lesionLE a c := by
  simp only [lesionLE, decide_eq_true_eq]
  exact fun h h' => le_trans h' h

/-- The comparison `lesionLE` is total. -/
theorem lesionLE_total (a b : Lesion) : lesionLE a b || lesionLE b a := by
  simp only [lesionLE, Bool.or_eq_true, decide_eq_true_eq]
  exact le_total _ _

end ProstateAnalyzer

namespace ProstateAnalyzer

/-- C1: Severity is a pure function of (volume, mean probability) with the
fixed thresholds of `_process_results`: it returns "Alta" exactly when
volume > 500 and probability > 0.75, "Media" exactly when that fails but
volume > 200 or probability > 0.6, and "Baja" exactly otherwise; in
particular (600, 0.8) ↦ "Alta", (300, 0.5) ↦ "Media",
(50, 0.3) ↦ "Baja". -/
theorem severity_deterministic_thresholds (v p : ℚ) :
    (classifySeverity v p = "Alta" ↔ 500 < v ∧ 3/4 < p) ∧
    (classifySeverity v p = "Media" ↔
      ¬(500 < v ∧ 3/4 < p) ∧ (200 < v ∨ 3/5 < p)) ∧
    (classifySeverity v p = "Baja" ↔
      ¬(500 < v ∧ 3/4 < p) ∧ ¬(200 < v ∨ 3/5 < p)) ∧
    classifySeverity 600 (4/5) = "Alta" ∧
    classifySeverity 300 (1/2) = "Media" ∧
    classifySeverity 50 (3/10) = "Baja" := by
  refine ⟨?_, ?_, ?_, by norm_num [classifySeverity], by norm_num [classifySeverity],
    by norm_num [classifySeverity]⟩ <;>
    unfold classifySeverity <;> split_ifs <;> simp_all

/-- C2: With the default threshold `MODEL_THRESHOLD = 0.5`, binarization
includes a voxel (mask value 1) exactly when its probability is strictly
greater than 0.5, and excludes it (mask value 0) otherwise; a voxel at
exactly 0.5 is excluded. -/
theorem binarization_strict_threshold (vol : List ℚ) (i : Nat) :
    ((lesionMask vol).get? i = some 1 ↔
      ∃ p, vol.get? i = some p ∧ MODEL_THRESHOLD < p) ∧
    ((lesionMask vol).get? i = some 0 ↔
      ∃ p, vol.get? i = some p ∧ ¬ MODEL_THRESHOLD < p) ∧
    binarizeVoxel (1/2) = 0 := by
  refine ⟨?_, ?_, by norm_num [binarizeVoxel, MODEL_THRESHOLD]⟩ <;>
    · simp only [lesionMask, List.get?_eq_getElem?, List.getElem?_map]
      cases h : vol[i]? with
      | none => simp
      | some p =>
          by_cases hp : MODEL_THRESHOLD < p
          · simp [binarizeVoxel, hp]
          · simp [binarizeVoxel, hp, le_of_not_lt hp]

/-- C3: In the results of `_process_results`, `num_lesions` is the length
of the lesion list, `has_significant_lesion` holds exactly when some
lesion has severity "Alta", and `total_lesion_volume` is exactly the sum
of the lesions' volumes.  The last two conjuncts restate the aggregates
against the unsorted per-label lesion list, showing the sort does not
change them. -/
theorem aggregate_fields_from_lesion_list (stats : List LabelStat) :
    (processResults stats).num_lesions = (processResults stats).lesions.length ∧
    ((processResults stats).has_significant_lesion = true ↔
      ∃ l ∈ (processResults stats).lesions, l.severity = "Alta") ∧
    (processResults stats).total_lesion_volume
      = ((processResults stats).lesions.map Lesion.volume_mm3).sum ∧
    (processResults stats).num_lesions = stats.length ∧
    (processResults stats).total_lesion_volume
      = ((stats.map mkLesion).map Lesion.volume_mm3).sum := by
  refine ⟨rfl, ?_, rfl, ?_, ?_⟩
  · simp [processResults, List.any_eq_true]
  · simp [processResults, sortLesions]
  · simp only [processResults, sortLesions]
    exact List.Perm.sum_eq (List.Perm.map _ (List.mergeSort_perm _ _))

/-- C4: The lesion list of `_process_results` is sorted by descending
`volume_mm3`, and the sort is stable: two lesions of equal volume keep
the relative order they had in the per-label list, which is built in
connected-component label order (SimpleITK's `GetLabels` order).  The
final conjunct records that the sorted list is a permutation of the
per-label list. -/
theorem lesions_sorted_desc_stable (stats : List LabelStat) :
    (processResults stats).lesions.Pairwise
      (fun a b => b.volume_mm3 ≤ a.volume_mm3) ∧
    (∀ a b : Lesion, List.Sublist [a, b] (stats.map mkLesion) →
      a.volume_mm3 = b.volume_mm3 →
      List.Sublist [a, b] (processResults stats).lesions) ∧
    (processResults stats).lesions.Perm (stats.map mkLesion) := by
  refine ⟨?_, ?_, ?_⟩
  · have h := List.sorted_mergeSort lesionLE_trans
      (fun a b => lesionLE_total a b) (stats.map mkLesion)
    exact h.imp (fun hab => by
      simpa only [lesionLE, decide_eq_true_eq] using hab)
  · intro a b hsub hvol
    exact List.pair_sublist_mergeSort lesionLE_trans
      (fun a b => lesionLE_total a b)
      (by simp [lesionLE, hvol.ge, hvol.le]) hsub
  · exact List.mergeSort_perm _ _

/-- Witness for C4: two equal-volume lesions in label order stay in that
order after the descending sort. -/
theorem lesions_sorted_desc_stable_witness :
    [mkLesion { label := 1, volume_mm3 := 100, max_diameter_mm := 6,
                centroid := [0, 0, 0], mean_probability := 1/10 },
     mkLesion { label := 2, volume_mm3 := 100, max_diameter_mm := 7,
                centroid := [1, 1, 1], mean_probability := 2/10 }].Sublist
      (processResults
        [{ label := 1, volume_mm3 := 100, max_diameter_mm := 6,
           centroid := [0, 0, 0], mean_probability := 1/10 },
         { label := 2, volume_mm3 := 100, max_diameter_mm := 7,
           centroid := [1, 1, 1], mean_probability := 2/10 }]).lesions :=
  (lesions_sorted_desc_stable
    [{ label := 1, volume_mm3 := 100, max_diameter_mm := 6,
       centroid := [0, 0, 0], mean_probability := 1/10 },
     { label := 2, volume_mm3 := 100, max_diameter_mm := 7,
       centroid := [1, 1, 1], mean_probability := 2/10 }]).2.1 _ _
    (List.Sublist.refl _) rfl

/-- The prefix test agrees with the existence of a decomposition. -/
theorem isStart_iff (sub name : List Char) :
    isStart sub name = true ↔ ∃ q, name = sub ++ q := by
  induction sub generalizing name with
  | nil => simp [isStart]
  | cons c cs ih =>
      cases name with
      | nil => simp [isStart]
      | cons d ds =>
          simp only [isStart, Bool.and_eq_true, beq_iff_eq, ih,
            List.cons_append, List.cons.injEq]
          constructor
          · rintro ⟨rfl, q, rfl⟩
            exact ⟨q, rfl, rfl⟩
          · rintro ⟨q, rfl, rfl⟩
            exact ⟨rfl, q, rfl⟩

/-- The substring test of `hasSub` agrees with the existence of a
decomposition `name = p ++ sub ++ q`, the meaning of Python's
`sub in name`. -/
theorem hasSub_iff (sub name : List Char) :
    hasSub sub name = true ↔ ∃ p q, name = p ++ sub ++ q := by
  induction name with
  | nil =>
      simp only [hasSub, isStart_iff]
      constructor
      · rintro ⟨q, hq⟩
        exact ⟨[], q, by simpa using hq⟩
      · rintro ⟨p, q, hpq⟩
        rcases (by simpa using hpq.symm : p = [] ∧ sub = [] ∧ q = []) with
          ⟨rfl, rfl, rfl⟩
        exact ⟨[], rfl⟩
  | cons c rest ih =>
      simp only [hasSub, Bool.or_eq_true, isStart_iff, ih]
      constructor
      · rintro (⟨q, hq⟩ | ⟨p, q, hpq⟩)
        · exact ⟨[], q, by simpa using hq⟩
        · exact ⟨c :: p, q, by simp [hpq]⟩
      · rintro ⟨p, q, hpq⟩
        cases p with
        | nil => exact Or.inl ⟨q, by simpa using hpq⟩
        | cons x xs =>
            simp only [List.cons_append, List.cons.injEq] at hpq
            exact Or.inr ⟨xs, q, hpq.2⟩

/-- A name containing "t2w" also contains "t2". -/
theorem t2w_sub_t2 (name : List Char)
    (h : ∃ p q, name = p ++ "t2w".toList ++ q) :
    ∃ p q, name = p ++ "t2".toList ++ q := by
  obtain ⟨p, q, rfl⟩ := h
  refine ⟨p, 'w' :: q, ?_⟩
  simp

/-- C9: The sequence type inferred by `_process_file` is decided purely
by substring tests on the (lowercased base) file name, in source order:
"t2" (or "t2w", which implies "t2") gives t2w; otherwise "adc" gives
adc; otherwise "dwi" or "hbv" gives dwi; otherwise "cor" gives cor;
otherwise "sag" gives sag; otherwise unknown.  The final conjunct
records that the tag assigned to a path is this function of the
lowercased base name. -/
theorem sequence_type_rules (name : List Char) :
    (inferSequenceType name = "t2w" ↔
      ∃ p q, name = p ++ "t2".toList ++ q) ∧
    (inferSequenceType name = "adc" ↔
      (∃ p q, name = p ++ "adc".toList ++ q) ∧
      ¬ ∃ p q, name = p ++ "t2".toList ++ q) ∧
    (inferSequenceType name = "dwi" ↔
      ((∃ p q, name = p ++ "dwi".toList ++ q) ∨
        (∃ p q, name = p ++ "hbv".toList ++ q)) ∧
      ¬ (∃ p q, name = p ++ "t2".toList ++ q) ∧
      ¬ ∃ p q, name = p ++ "adc".toList ++ q) ∧
    (inferSequenceType name = "cor" ↔
      (∃ p q, name = p ++ "cor".toList ++ q) ∧
      ¬ (∃ p q, name = p ++ "t2".toList ++ q) ∧
      ¬ (∃ p q, name = p ++ "adc".toList ++ q) ∧
      ¬ (∃ p q, name = p ++ "dwi".toList ++ q) ∧
      ¬ ∃ p q, name = p ++ "hbv".toList ++ q) ∧
    (inferSequenceType name = "sag" ↔
      (∃ p q, name = p ++ "sag".toList ++ q) ∧
      ¬ (∃ p q, name = p ++ "t2".toList ++ q) ∧
      ¬ (∃ p q, name = p ++ "adc".toList ++ q) ∧
      ¬ (∃ p q, name = p ++ "dwi".toList ++ q) ∧
      ¬ (∃ p q, name = p ++ "hbv".toList ++ q) ∧
      ¬ ∃ p q, name = p ++ "cor".toList ++ q) ∧
    (inferSequenceType name = "unknown" ↔
      ¬ (∃ p q, name = p ++ "t2".toList ++ q) ∧
      ¬ (∃ p q, name = p ++ "adc".toList ++ q) ∧
      ¬ (∃ p q, name = p ++ "dwi".toList ++ q) ∧
      ¬ (∃ p q, name = p ++ "hbv".toList ++ q) ∧
      ¬ (∃ p q, name = p ++ "cor".toList ++ q) ∧
      ¬ ∃ p q, name = p ++ "sag".toList ++ q) ∧
    (∀ path : String,
      sequenceTypeOfPath path
        = inferSequenceType (lowerName (basename path.toList))) := by
  have collapse :
      (hasSub "t2".toList name || hasSub "t2w".toList name)
        = hasSub "t2".toList name := by
    cases h2 : hasSub "t2".toList name with
    | true => simp
    | false =>
        simp only [Bool.false_or]
        rw [Bool.eq_false_iff]
        intro hw
        have := t2w_sub_t2 name ((hasSub_iff _ _).mp hw)
        rw [Bool.eq_false_iff] at h2
        exact h2 ((hasSub_iff _ _).mpr this)
  have hT2 := hasSub_iff "t2".toList name
  have hADC := hasSub_iff "adc".toList name
  have hDWI := hasSub_iff "dwi".toList name
  have hHBV := hasSub_iff "hbv".toList name
  have hCOR := hasSub_iff "cor".toList name
  have hSAG := hasSub_iff "sag".toList name
  unfold inferSequenceType
  rw [collapse]
  split_ifs with h1 h2 h3 h4 h5
  · have pT2 := hT2.mp h1
    exact ⟨iff_of_true rfl pT2,
      iff_of_false (by decide) (fun h => h.2 pT2),
      iff_of_false (by decide) (fun h => h.2.1 pT2),
      iff_of_false (by decide) (fun h => h.2.1 pT2),
      iff_of_false (by decide) (fun h => h.2.1 pT2),
      iff_of_false (by decide) (fun h => h.1 pT2),
      fun _ => rfl⟩
  · have nT2 : ¬ ∃ p q, name = p ++ "t2".toList ++ q :=
      fun hp => h1 (hT2.mpr hp)
    have pADC := hADC.mp h2
    exact ⟨iff_of_false (by decide) nT2,
      iff_of_true rfl ⟨pADC, nT2⟩,
      iff_of_false (by decide) (fun h => h.2.2 pADC),
      iff_of_false (by decide) (fun h => h.2.2.1 pADC),
      iff_of_false (by decide) (fun h => h.2.2.1 pADC),
      iff_of_false (by decide) (fun h => h.2.1 pADC),
      fun _ => rfl⟩
  · have nT2 : ¬ ∃ p q, name = p ++ "t2".toList ++ q :=
      fun hp => h1 (hT2.mpr hp)
    have nADC : ¬ ∃ p q, name = p ++ "adc".toList ++ q :=
      fun hp => h2 (hADC.mpr hp)
    have pDH : (∃ p q, name = p ++ "dwi".toList ++ q) ∨
        ∃ p q, name = p ++ "hbv".toList ++ q := by
      rcases Bool.or_eq_true _ _ ▸ h3 with hd | hb
      · exact Or.inl (hDWI.mp hd)
      · exact Or.inr (hHBV.mp hb)
    exact ⟨iff_of_false (by decide) nT2,
      iff_of_false (by decide) (fun h => nADC h.1),
      iff_of_true rfl ⟨pDH, nT2, nADC⟩,
      iff_of_false (by decide)
        (fun h => pDH.elim (fun pd => h.2.2.2.1 pd) (fun ph => h.2.2.2.2 ph)),
      iff_of_false (by decide)
        (fun h => pDH.elim (fun pd => h.2.2.2.1 pd) (fun ph => h.2.2.2.2.1 ph)),
      iff_of_false (by decide)
        (fun h => pDH.elim (fun pd => h.2.2.1 pd) (fun ph => h.2.2.2.1 ph)),
      fun _ => rfl⟩
  · have nT2 : ¬ ∃ p q, name = p ++ "t2".toList ++ q :=
      fun hp => h1 (hT2.mpr hp)
    have nADC : ¬ ∃ p q, name = p ++ "adc".toList ++ q :=
      fun hp => h2 (hADC.mpr hp)
    have nDWI : ¬ ∃ p q, name = p ++ "dwi".toList ++ q :=
      fun hp => h3 (by rw [Bool.or_eq_true]; exact Or.inl (hDWI.mpr hp))
    have nHBV : ¬ ∃ p q, name = p ++ "hbv".toList ++ q :=
      fun hp => h3 (by rw [Bool.or_eq_true]; exact Or.inr (hHBV.mpr hp))
    have pCOR := hCOR.mp h4
    exact ⟨iff_of_false (by decide) nT2,
      iff_of_false (by decide) (fun h => nADC h.1),
      iff_of_false (by decide) (fun h => h.1.elim nDWI nHBV),
      iff_of_true rfl ⟨pCOR, nT2, nADC, nDWI, nHBV⟩,
      iff_of_false (by decide) (fun h => h.2.2.2.2.2 pCOR),
      iff_of_false (by decide) (fun h => h.2.2.2.2.1 pCOR),
      fun _ => rfl⟩
  · have nT2 : ¬ ∃ p q, name = p ++ "t2".toList ++ q :=
      fun hp => h1 (hT2.mpr hp)
    have nADC : ¬ ∃ p q, name = p ++ "adc".toList ++ q :=
      fun hp => h2 (hADC.mpr hp)
    have nDWI : ¬ ∃ p q, name = p ++ "dwi".toList ++ q :=
      fun hp => h3 (by rw [Bool.or_eq_true]; exact Or.inl (hDWI.mpr hp))
    have nHBV : ¬ ∃ p q, name = p ++ "hbv".toList ++ q :=
      fun hp => h3 (by rw [Bool.or_eq_true]; exact Or.inr (hHBV.mpr hp))
    have nCOR : ¬ ∃ p q, name = p ++ "cor".toList ++ q :=
      fun hp => h4 (hCOR.mpr hp)
    have pSAG := hSAG.mp h5
    exact ⟨iff_of_false (by decide) nT2,
      iff_of_false (by decide) (fun h => nADC h.1),
      iff_of_false (by decide) (fun h => h.1.elim nDWI nHBV),
      iff_of_false (by decide) (fun h => nCOR h.1),
      iff_of_true rfl ⟨pSAG, nT2, nADC, nDWI, nHBV, nCOR⟩,
      iff_of_false (by decide) (fun h => h.2.2.2.2.2 pSAG),
      fun _ => rfl⟩
  · have nT2 : ¬ ∃ p q, name = p ++ "t2".toList ++ q :=
      fun hp => h1 (hT2.mpr hp)
    have nADC : ¬ ∃ p q, name = p ++ "adc".toList ++ q :=
      fun hp => h2 (hADC.mpr hp)
    have nDWI : ¬ ∃ p q, name = p ++ "dwi".toList ++ q :=
      fun hp => h3 (by rw [Bool.or_eq_true]; exact Or.inl (hDWI.mpr hp))
    have nHBV : ¬ ∃ p q, name = p ++ "hbv".toList ++ q :=
      fun hp => h3 (by rw [Bool.or_eq_true]; exact Or.inr (hHBV.mpr hp))
    have nCOR : ¬ ∃ p q, name = p ++ "cor".toList ++ q :=
      fun hp => h4 (hCOR.mpr hp)
    have nSAG : ¬ ∃ p q, name = p ++ "sag".toList ++ q :=
      fun hp => h5 (hSAG.mpr hp)
    exact ⟨iff_of_false (by decide) nT2,
      iff_of_false (by decide) (fun h => nADC h.1),
      iff_of_false (by decide) (fun h => h.1.elim nDWI nHBV),
      iff_of_false (by decide) (fun h => nCOR h.1),
      iff_of_false (by decide) (fun h => nSAG h.1),
      iff_of_true rfl ⟨nT2, nADC, nDWI, nHBV, nCOR, nSAG⟩,
      fun _ => rfl⟩

/-- C5: `load_case` raises on an empty path list, raises when every file
fails to process, and otherwise succeeds, appending exactly one new case
and making it the current case. -/
theorem load_case_behaviour (st : CaseManagerState) (now caseName : String)
    (prs : List (Option FileInfo)) :
    (prs = [] →
      load_case st now caseName prs
        = .error "No se proporcionaron archivos para cargar") ∧
    (prs ≠ [] → prs.filterMap id = [] →
      load_case st now caseName prs
        = .error "No se pudo procesar ninguno de los archivos proporcionados") ∧
    (∀ fi : FileInfo, some fi ∈ prs →
      ∃ st2 c, load_case st now caseName prs = .ok (st2, c) ∧
        st2.cases = st.cases ++ [c] ∧
        st2.cases.length = st.cases.length + 1 ∧
        st2.current_case_index = (st.cases.length : Int) ∧
        get_current_case st2 = some c) := by
  refine ⟨?_, ?_, ?_⟩
  · rintro rfl
    rfl
  · intro hne hemp
    have h1 : prs.isEmpty = false := by
      simpa [List.isEmpty_iff] using hne
    simp [load_case, h1, hemp]
  · intro fi hfi
    have hne : prs.isEmpty = false := by
      rcases prs with _ | _
      · simp at hfi
      · rfl
    have hmem : fi ∈ prs.filterMap id :=
      List.mem_filterMap.mpr ⟨some fi, hfi, rfl⟩
    have hfne : (prs.filterMap id).isEmpty = false := by
      rcases h : prs.filterMap id with _ | _
      · rw [h] at hmem
        simp at hmem
      · rfl
    refine ⟨⟨st.cases ++ [newCaseOf now caseName (prs.filterMap id)],
        (st.cases.length : Int)⟩,
      newCaseOf now caseName (prs.filterMap id), ?_, rfl, by simp, rfl, ?_⟩
    · simp [load_case, hne, hfne]
    · simp only [get_current_case]
      rw [if_neg]
      · simp [List.get?_eq_getElem?, List.getElem?_concat_length]
      · simp only [List.length_append, List.length_cons, List.length_nil]
        omega

/-- C7: A call to `start_prediction` while the worker slot holds a
running worker raises an error, leaves the worker slot untouched (so no
second worker is started or queued), and can never return without an
error; conversely, any call that does succeed was made while no worker
was running, so at most one worker is ever active. -/
theorem no_second_worker (ta ma : Bool) (fe : String → Bool)
    (st : PredControllerState) (cd : Option (List FileInfo))
    (hrun : workerRunning st = true) :
    (start_prediction ta ma fe st cd).2.isSome = true ∧
    (start_prediction ta ma fe st cd).1.worker = st.worker ∧
    (∀ st2 : PredControllerState, ∀ cd2 : Option (List FileInfo),
      (start_prediction ta ma fe st2 cd2).2 = none →
        workerRunning st2 = false) := by
  refine ⟨?_, ?_, ?_⟩
  · unfold start_prediction
    split_ifs <;> simp_all
  · unfold start_prediction
    split_ifs <;> simp_all
  · intro st2 cd2 hok
    by_cases hw : workerRunning st2 = true
    · exfalso
      unfold start_prediction at hok
      split_ifs at hok
    · simpa using hw

/-- Witness for C5: loading one unparsable and one parsable file into a
fresh manager succeeds and appends exactly one case, which becomes
current. -/
theorem load_case_behaviour_witness :
    ∃ st2 c,
      load_case initialCaseManager "20250101_000000" "Caso demo"
          [none, some { path := "demo/t2.nii", format := ".nii",
                        loaded_with := some "SimpleITK", array := some [1],
                        metadata := [], sequence_type := "t2w" }]
        = .ok (st2, c) ∧
      st2.cases = initialCaseManager.cases ++ [c] ∧
      st2.cases.length = initialCaseManager.cases.length + 1 ∧
      st2.current_case_index = (initialCaseManager.cases.length : Int) ∧
      get_current_case st2 = some c :=
  (load_case_behaviour initialCaseManager "20250101_000000" "Caso demo"
      [none, some { path := "demo/t2.nii", format := ".nii",
                    loaded_with := some "SimpleITK", array := some [1],
                    metadata := [], sequence_type := "t2w" }]).2.2
    { path := "demo/t2.nii", format := ".nii",
      loaded_with := some "SimpleITK", array := some [1],
      metadata := [], sequence_type := "t2w" } (by simp)

/-- Witness for C7: with a running worker in the slot, a concrete call
errors out and leaves the slot as it was. -/
theorem no_second_worker_witness :
    ((start_prediction true true (fun _ => true)
        { model_path := "m.pth", sample_model_path := "s.pth",
          worker := some { running := true, case_files := [],
                           model_path := "m.pth" } }
        (some [])).2.isSome = true) ∧
    ((start_prediction true true (fun _ => true)
        { model_path := "m.pth", sample_model_path := "s.pth",
          worker := some { running := true, case_files := [],
                           model_path := "m.pth" } }
        (some [])).1.worker
      = some { running := true, case_files := [], model_path := "m.pth" }) := by
  have h := no_second_worker true true (fun _ => true)
    { model_path := "m.pth", sample_model_path := "s.pth",
      worker := some { running := true, case_files := [],
                       model_path := "m.pth" } }
    (some []) rfl
  exact ⟨h.1, h.2.1⟩

/-- C8: Every case-manager operation preserves the invariant that the
current-case index is `-1` or a valid position; closing the only open
case resets the index to `-1`; and `get_current_case` returns `none`
exactly when the index is not a valid position. -/
theorem current_case_invariant (st : CaseManagerState) (hInv : CMInv st) :
    (∀ now nm prs st2 c,
      load_case st now nm prs = .ok (st2, c) → CMInv st2) ∧
    (∀ j st2 c, load_case_from_file st j = .ok (st2, c) → CMInv st2) ∧
    CMInv (close_current_case st) ∧
    CMInv (close_all_cases st) ∧
    (∀ f, CMInv (modify_current_case st f)) ∧
    (∀ now, CMInv (save_current_case st now).1) ∧
    (st.cases.length = 1 →
      (close_current_case st).current_case_index = -1) ∧
    (get_current_case st = none ↔
      ¬ (0 ≤ st.current_case_index ∧
          st.current_case_index < (st.cases.length : Int))) := by
  refine ⟨?_, ?_, ?_, ?_, ?_, ?_, ?_, ?_⟩
  · intro now nm prs st2 c h
    unfold load_case at h
    split at h
    · simp at h
    · split at h
      · simp at h
      · simp only [Except.ok.injEq, Prod.mk.injEq] at h
        obtain ⟨rfl, rfl⟩ := h
        right
        simp only [List.length_append, List.length_cons, List.length_nil]
        omega
  · intro j st2 c h
    unfold load_case_from_file at h
    cases hdec : decodeCase j with
    | none => rw [hdec] at h; simp at h
    | some c0 =>
        rw [hdec] at h
        simp only [Except.ok.injEq, Prod.mk.injEq] at h
        obtain ⟨rfl, rfl⟩ := h
        right
        simp only [List.length_append, List.length_cons, List.length_nil]
        omega
  · unfold close_current_case
    split_ifs with hc h0 hge
    · exact hInv
    · exact Or.inl rfl
    · have hlen : (st.cases.eraseIdx st.current_case_index.toNat).length
          = st.cases.length - 1 :=
        List.length_eraseIdx_of_lt (by omega)

      simp only [CMInv]
      omega
    · have hlen : (st.cases.eraseIdx st.current_case_index.toNat).length
          = st.cases.length - 1 :=
        List.length_eraseIdx_of_lt (by omega)
      simp only [CMInv]
      omega
  · exact Or.inl rfl
  · intro f
    unfold modify_current_case
    split_ifs with hc
    · exact hInv
    · cases hget : st.cases.get? st.current_case_index.toNat with
      | none => simpa [hget] using hInv
      | some c0 =>
          simp only [hget, CMInv, List.length_set]
          exact hInv
  · intro now
    unfold save_current_case
    split_ifs with hc
    · exact hInv
    · cases hget : st.cases.get? st.current_case_index.toNat with
      | none => simpa [hget] using hInv
      | some c0 =>
          simp only [hget, CMInv, List.length_set]
          exact hInv
  · intro h1
    unfold close_current_case
    split_ifs with hc h0 hge
    · rcases hInv with h | h
      · exact h
      · exact absurd (by omega : ¬ (st.current_case_index < 0 ∨
          (st.cases.length : Int) ≤ st.current_case_index)) (fun hn => hn hc)
    · rfl
    · have hlen : (st.cases.eraseIdx st.current_case_index.toNat).length
          = st.cases.length - 1 :=
        List.length_eraseIdx_of_lt (by omega)
      omega
    · have hlen : (st.cases.eraseIdx st.current_case_index.toNat).length
          = st.cases.length - 1 :=
        List.length_eraseIdx_of_lt (by omega)
      omega
  · unfold get_current_case
    split_ifs with hc
    · exact iff_of_true rfl (by omega)
    · have hlt : st.current_case_index.toNat < st.cases.length := by omega
      refine iff_of_false ?_ (by omega)
      simp [List.get?_eq_getElem?, List.getElem?_eq_getElem hlt]

/-- Witness for C8: on a manager holding exactly one case, closing the
current case keeps the invariant and resets the index to `-1`. -/
theorem current_case_invariant_witness :
    CMInv (close_current_case
      { cases := [{ id := "c", name := "n", files := [], metadata := [],
                    created_date := "d", modified_date := "d",
                    has_changes := false }],
        current_case_index := 0 }) ∧
    (close_current_case
      { cases := [{ id := "c", name := "n", files := [], metadata := [],
                    created_date := "d", modified_date := "d",
                    has_changes := false }],
        current_case_index := 0 }).current_case_index = -1 := by
  have h := current_case_invariant
    { cases := [{ id := "c", name := "n", files := [], metadata := [],
                  created_date := "d", modified_date := "d",
                  has_changes := false }],
      current_case_index := 0 }
    (Or.inr ⟨by decide, by decide⟩)
  exact ⟨h.2.2.1, h.2.2.2.2.2.2.1 rfl⟩

/-- Decoding inverts encoding on metadata dictionaries. -/
theorem decodeMetaFields_encode (m : List (String × String)) :
    decodeMetaFields (m.map fun kv => (kv.1, Json.str kv.2)) = some m := by
  induction m with
  | nil => rfl
  | cons kv rest ih => simp [decodeMetaFields, ih]

/-- Decoding inverts encoding on metadata JSON objects. -/
theorem decodeMetadata_encode (m : List (String × String)) :
    decodeMetadata (encodeMetadata m) = some m := by
  simp [decodeMetadata, encodeMetadata, decodeMetaFields_encode]

/-- Decoding inverts encoding on a file record whose array was already
removed. -/
theorem decodeFileInfo_encode (f : FileInfo) (h : f.array = none) :
    decodeFileInfo (encodeFileInfo f) = some f := by
  cases f with
  | mk p fm lw ar md sq =>
      simp only [FileInfo.mk.injEq] at h ⊢
      subst h
      cases lw with
      | none =>
          simp [encodeFileInfo, decodeFileInfo, Json.lookup, lookupField,
            decodeLoadedWith, decodeArrayField, decodeMetadata_encode]
      | some s =>
          simp [encodeFileInfo, decodeFileInfo, Json.lookup, lookupField,
            decodeLoadedWith, decodeArrayField, decodeMetadata_encode]

/-- Decoding inverts encoding on a list of array-free file records. -/
theorem decodeFiles_encode (fs : List FileInfo)
    (h : ∀ f ∈ fs, f.array = none) :
    decodeFiles (fs.map encodeFileInfo) = some fs := by
  induction fs with
  | nil => rfl
  | cons f rest ih =>
      simp only [List.map_cons, decodeFiles,
        decodeFileInfo_encode f (h f (by simp)),
        ih (fun g hg => h g (by simp [hg]))]

/-- Decoding inverts encoding on a case whose file records carry no
arrays. -/
theorem decodeCase_encode (c : Case) (h : ∀ f ∈ c.files, f.array = none) :
    decodeCase (encodeCase c) = some c := by
  cases c with
  | mk cid nm fs md cd mdate hc =>
      simp [encodeCase, decodeCase, Json.lookup, lookupField,
        decodeFiles_encode fs (by simpa using h), decodeMetadata_encode]

/-- C6: Saving the current case to JSON and reloading the document with
`load_case_from_file` succeeds and reproduces a case with the same id,
name, per-file sequence types and metadata, while every reloaded file
record's array entry is absent (`none`): the voxel data is not preserved
by the round trip.  The reloaded case is appended to the manager's
list. -/
theorem save_load_round_trip (st : CaseManagerState) (c : Case)
    (now : String) :
    ∃ st2 c2,
      load_case_from_file st (saveCaseJson c now) = .ok (st2, c2) ∧
      c2.id = c.id ∧ c2.name = c.name ∧
      c2.files.map FileInfo.sequence_type
        = c.files.map FileInfo.sequence_type ∧
      c2.metadata = c.metadata ∧
      (∀ f ∈ c2.files, f.array = none) ∧
      st2.cases = st.cases ++ [c2] := by
  have hdec : decodeCase (saveCaseJson c now)
      = some { c with modified_date := now,
                      files := c.files.map stripFileArray } := by
    apply decodeCase_encode
    intro f hf
    simp only [List.mem_map] at hf
    obtain ⟨g, _, rfl⟩ := hf
    rfl
  refine ⟨⟨st.cases ++
      [{ c with modified_date := now,
                files := c.files.map stripFileArray }],
      (st.cases.length : Int)⟩,
    { c with modified_date := now, files := c.files.map stripFileArray },
    ?_, rfl, rfl, ?_, rfl, ?_, rfl⟩
  · simp [load_case_from_file, hdec]
  · show (c.files.map stripFileArray).map FileInfo.sequence_type
      = c.files.map FileInfo.sequence_type
    rw [List.map_map]
    rfl
  · intro f hf
    simp only [List.mem_map] at hf
    obtain ⟨g, _, rfl⟩ := hf
    rfl

/-- Clearing the array at position `i` replaces the record at `i` by its
array-free version. -/
theorem clearArrayAt_get_self (l : List FileInfo) (i : Nat) :
    (clearArrayAt l i).get? i
      = (l.get? i).map (fun f => { f with array := none }) := by
  induction l generalizing i with
  | nil => simp [clearArrayAt]
  | cons f fs ih =>
      cases i with
      | zero => simp [clearArrayAt]
      | succ n => simpa [clearArrayAt] using ih n

/-- Clearing the array at position `i` leaves other positions
untouched. -/
theorem clearArrayAt_get_other (l : List FileInfo) (i j : Nat) (h : j ≠ i) :
    (clearArrayAt l i).get? j = l.get? j := by
  induction l generalizing i j with
  | nil => simp [clearArrayAt]
  | cons f fs ih =>
      cases i with
      | zero =>
          cases j with
          | zero => exact absurd rfl h
          | succ m => simp [clearArrayAt]
      | succ n =>
          cases j with
          | zero => simp [clearArrayAt]
          | succ m =>
              simpa [clearArrayAt] using ih n m (fun hh => h (by rw [hh]))

/-- A position whose record already has no array keeps having none after
any further clearing step. -/
theorem clearArrayAt_preserves (l : List FileInfo) (i r : Nat)
    (h : ∀ f, l.get? r = some f → f.array = none) :
    ∀ f, (clearArrayAt l i).get? r = some f → f.array = none := by
  intro f hf
  by_cases hir : r = i
  · subst hir
    rw [clearArrayAt_get_self] at hf
    cases hg : l.get? r with
    | none => rw [hg] at hf; simp at hf
    | some g =>
        rw [hg] at hf
        simp only [Option.map_some'] at hf
        obtain rfl := Option.some_inj.mp hf
        rfl
  · rw [clearArrayAt_get_other l i r hir] at hf
    exact h f hf

/-- Arrays once cleared stay cleared through the rest of the clearing
loop. -/
theorem stripArraysAt_preserves (refs : List Nat) (l : List FileInfo)
    (r : Nat) (h : ∀ f, l.get? r = some f → f.array = none) :
    ∀ f, (stripArraysAt l refs).get? r = some f → f.array = none := by
  induction refs generalizing l with
  | nil => exact h
  | cons i rest ih => exact ih (clearArrayAt l i) (clearArrayAt_preserves l i r h)

/-- Every position visited by the clearing loop ends with no array. -/
theorem stripArraysAt_mem (refs : List Nat) (r : Nat) :
    r ∈ refs → ∀ (l : List FileInfo) (f : FileInfo),
      (stripArraysAt l refs).get? r = some f → f.array = none := by
  induction refs with
  | nil => intro h; simp at h
  | cons i rest ih =>
      intro hr l f hf
      rcases List.mem_cons.mp hr with rfl | hmem
      · refine stripArraysAt_preserves rest (clearArrayAt l r) r ?_ f hf
        intro g hg
        rw [clearArrayAt_get_self] at hg
        cases hgg : l.get? r with
        | none => rw [hgg] at hg; simp at hg
        | some g0 =>
            rw [hgg] at hg
            simp only [Option.map_some'] at hg
            obtain rfl := Option.some_inj.mp hg
            rfl
      · exact ih hmem (clearArrayAt l i) f hf

/-- C10: `save_current_case` serializes a shallow copy, so the file
dictionaries are shared between the saved snapshot and the live case:
after the save, every file record the live case references has lost its
array entry in the store as well, and the live case still points at
exactly the same records. -/
theorem shallow_copy_save_strips_live_arrays (s : Store) (c : HeapCase)
    (now : String) (r : Nat) (hr : r ∈ c.fileRefs) (f : FileInfo)
    (hf : (save_current_case_heap s c now).1.recs.get? r = some f) :
    f.array = none ∧
    (save_current_case_heap s c now).2.fileRefs = c.fileRefs :=
  ⟨stripArraysAt_mem c.fileRefs r hr s.recs f hf, rfl⟩

/-- Witness for C10: a store with one record holding an array, saved
through a case referencing it, ends with the record's array gone while
the live case still references it. -/
theorem shallow_copy_save_strips_live_arrays_witness :
    ({ path := "p.nii", format := ".nii", loaded_with := none,
       array := none, metadata := [], sequence_type := "t2w" }
        : FileInfo).array = none ∧
    (save_current_case_heap
        { recs := [{ path := "p.nii", format := ".nii", loaded_with := none,
                     array := some [1, 2], metadata := [],
                     sequence_type := "t2w" }] }
        { id := "c", name := "n", fileRefs := [0], modified_date := "d",
          has_changes := true } "now").2.fileRefs
      = [0] :=
  shallow_copy_save_strips_live_arrays
    { recs := [{ path := "p.nii", format := ".nii", loaded_with := none,
                 array := some [1, 2], metadata := [],
                 sequence_type := "t2w" }] }
    { id := "c", name := "n", fileRefs := [0], modified_date := "d",
      has_changes := true } "now" 0 (by simp)
    { path := "p.nii", format := ".nii", loaded_with := none,
      array := none, metadata := [], sequence_type := "t2w" } rfl

end ProstateAnalyzer
